import Mathlib

/-!
Verification of the orbit-integrator core of the quadrupoles repository
(src/src/physics.ts), shallowly embedded in Lean with exact real
arithmetic in place of IEEE doubles.

The embedding follows the TypeScript source line by line:
  * samplePlanarOrbit  : the circular fallback sampler;
  * planetRK2          : the fixed-step midpoint-predictor loop, modelled
                         functionally (the source mutates the arrays in
                         place; here the loop returns the final contents
                         of the arrays together with the num/error pair);
  * calculateOrbit     : the public entry point with its guards, the
                         energy computation, and the fallback selection.
-/

open Real

noncomputable section

/-- Triple of real components, the Vec3 of src/types. -/
structure Vec3 where
  x : ℝ
  y : ℝ
  z : ℝ

namespace Vec3

@[ext] theorem ext3 {a b : Vec3} (hx : a.x = b.x) (hy : a.y = b.y)
    (hz : a.z = b.z) : a = b := by
  cases a; cases b; simp_all

instance : Add Vec3 := ⟨fun a b => ⟨a.x + b.x, a.y + b.y, a.z + b.z⟩⟩
instance : Sub Vec3 := ⟨fun a b => ⟨a.x - b.x, a.y - b.y, a.z - b.z⟩⟩
instance : SMul ℝ Vec3 := ⟨fun c a => ⟨c * a.x, c * a.y, c * a.z⟩⟩

theorem add_def (a b : Vec3) : a + b = ⟨a.x + b.x, a.y + b.y, a.z + b.z⟩ := rfl
theorem sub_def (a b : Vec3) : a - b = ⟨a.x - b.x, a.y - b.y, a.z - b.z⟩ := rfl
theorem smul_def (c : ℝ) (a : Vec3) : c • a = ⟨c * a.x, c * a.y, c * a.z⟩ := rfl

end Vec3

/-- Euclidean magnitude, the hypot3 helper of planetRK2 and the inline
sqrt of squares in calculateOrbit. -/
def norm3 (v : Vec3) : ℝ := Real.sqrt (v.x ^ 2 + v.y ^ 2 + v.z ^ 2)

theorem norm3_nonneg (v : Vec3) : 0 ≤ norm3 v := Real.sqrt_nonneg _

/-- samplePlanarOrbit from physics.ts: samples points on a circle of the
given radius in the z = 0 plane, angle i / samples * 2 * pi. -/
def samplePlanarOrbit (samples : ℕ) (radius : ℝ) : List Vec3 :=
  (List.range samples).map (fun (i : ℕ) =>
    let t : ℝ := (i : ℝ) / (samples : ℝ) * 2 * π
    ⟨radius * Real.cos t, radius * Real.sin t, 0⟩)

/-- One iteration of the planetRK2 loop body: from the state (pos, vel) at
index i it produces (pos, vel) at index i + 1, exactly as computed by the
source before the collision check. -/
def rk2Step (radius GM dt : ℝ) (pos vel : Vec3) : Vec3 × Vec3 :=
  let r := norm3 pos
  let xpri := pos.x + dt * vel.x / 2
  let ypri := pos.y + dt * vel.y / 2
  let zpri := pos.z + dt * vel.z / 2
  let r2 := r * r
  let r3 := r2 * r
  let r5 := r3 * r2
  let r7 := r5 * r2
  let m := GM / r3
  let o := -3.75 * ((GM * radius * radius) / r7) * (pos.z * pos.z)
  let p := 0.75 * ((GM * radius * radius) / r5)
  let q := 1.5 * ((GM * radius * radius) / r5)
  let vxpri := vel.x - dt * pos.x * (m + o + p) / 2
  let vypri := vel.y - dt * pos.y * (m + o + p) / 2
  let vzpri := vel.z - dt * pos.z * (m + o + p + q) / 2
  let rpri := norm3 ⟨xpri, ypri, zpri⟩
  let newPos : Vec3 := ⟨pos.x + dt * vxpri, pos.y + dt * vypri, pos.z + dt * vzpri⟩
  let rpri2 := rpri * rpri
  let rpri3 := rpri2 * rpri
  let rpri5 := rpri3 * rpri2
  let rpri7 := rpri5 * rpri2
  let mpri := GM / rpri3
  let opri := -3.75 * ((GM * radius * radius) / rpri7) * (zpri * zpri)
  let ppri := 0.75 * ((GM * radius * radius) / rpri5)
  let qpri := 1.5 * ((GM * radius * radius) / rpri5)
  let newVel : Vec3 :=
    ⟨vel.x - dt * xpri * (mpri + opri + ppri),
     vel.y - dt * ypri * (mpri + opri + ppri),
     vel.z - dt * zpri * (mpri + opri + ppri + qpri)⟩
  (newPos, newVel)

/-- The exact state the loop would reach after j collision-free steps. -/
def traj (radius GM dt : ℝ) (p0 v0 : Vec3) : ℕ → Vec3 × Vec3
  | 0 => (p0, v0)
  | j + 1 =>
    let s := traj radius GM dt p0 v0 j
    rk2Step radius GM dt s.1 s.2

/-- Result record of planetRK2: the final contents of the three arrays the
source mutates in place (times from index 1 on are produced by the loop),
plus the num / error pair it returns. -/
structure RKOut where
  t : List ℝ
  pos : List Vec3
  vel : List Vec3
  num : ℕ
  error : ℕ

/-- Times written by the freeze loop: t + dt, t + 2 dt, ... (k entries).
The source keeps advancing the time array at the fixed step over the
frozen tail. -/
def freezeTimes (t dt : ℝ) : ℕ → List ℝ
  | 0 => []
  | k + 1 => (t + dt) :: freezeTimes (t + dt) dt k

/-- The planetRK2 loop from index i on, with k steps left to write, in
state (p, v) at time t.  On collision (radius of the current state below
the attractor radius) the source overwrites the entries it just computed
and fills the tail with the colliding position and zero velocity; the
functional model emits that frozen tail directly. -/
def loopAux (radius GM dt : ℝ) (i : ℕ) (t : ℝ) (p v : Vec3) : ℕ → RKOut
  | 0 => ⟨[], [], [], i, 0⟩
  | k + 1 =>
    if norm3 p < radius then
      ⟨freezeTimes t dt (k + 1), List.replicate (k + 1) p,
       List.replicate (k + 1) ⟨0, 0, 0⟩, i, 1⟩
    else
      let s := rk2Step radius GM dt p v
      let rest := loopAux radius GM dt (i + 1) (t + dt) s.1 s.2 k
      ⟨(t + dt) :: rest.t, s.1 :: rest.pos, s.2 :: rest.vel, rest.num, rest.error⟩

/-- planetRK2 from physics.ts.  The arrays enter seeded with
t = 0, pos = initialPosition, vel = initialVelocity at index 0; for
n at most 1 the loop body never runs and the source reports
num = 0, error = 1. -/
def planetRK2 (n : ℕ) (radius GM dt : ℝ) (p0 v0 : Vec3) : RKOut :=
  if n ≤ 1 then ⟨[0], [p0], [v0], 0, 1⟩
  else
    let rest := loopAux radius GM dt 0 0 p0 v0 (n - 1)
    ⟨0 :: rest.t, p0 :: rest.pos, v0 :: rest.vel, rest.num, rest.error⟩

/-- GM = 4 pi^2 as in calculateOrbit. -/
def GMval : ℝ := 4 * π * π

/-- numPoints of calculateOrbit: absolute value of the rounded quotient
finalTime / 0.1 (Math.round rounds halves toward positive infinity, as
does the Mathlib round function). -/
def numPoints (finalTime : ℝ) : ℕ := (round (finalTime / (0.1 : ℝ))).natAbs

/-- The fallback return value used on every failure path of
calculateOrbit: one sample on a circle of radius 0.1, energy 0. -/
def fallbackPair : List Vec3 × ℝ := (samplePlanarOrbit 1 (0.1 : ℝ), 0)

/-- calculateOrbit from physics.ts (the try block; in exact arithmetic no
step of the body can throw, divisions by zero being total in Lean, so the
catch branch is dead). -/
def calculateOrbit (finalTime : ℝ) (initialPosition initialVelocity : Vec3)
    (attractorRadius : ℝ) : List Vec3 × ℝ :=
  let timeStep : ℝ := 0.1
  if numPoints finalTime ≤ 0 ∨ timeStep ≤ 0 then fallbackPair
  else
    let r := norm3 initialPosition
    let vmag := norm3 initialVelocity
    let mass : ℝ := 1
    let KE := 0.5 * mass * vmag ^ 2
    let PH := -GMval / r + ((0.75 * GMval * (attractorRadius ^ 2) * (initialPosition.z ^ 2)) / r ^ 5)
        - ((0.25 * GMval * attractorRadius ^ 2) / r ^ 3)
    let E := KE + mass * PH
    if r ≤ 0 ∨ vmag ≤ 0 then fallbackPair
    else
      let result := planetRK2 (numPoints finalTime) attractorRadius GMval timeStep
        initialPosition initialVelocity
      if result.num < 2 then fallbackPair
      else (result.pos.take (result.num + 1), E)

/-- The energy formula as the spec states it (GM = 4 pi^2, r0 and v0 the
initial magnitudes, z0 the initial z component). -/
def energyFormula (p0 v0 : Vec3) (attractorRadius : ℝ) : ℝ :=
  0.5 * (norm3 v0) ^ 2 - GMval / norm3 p0
    + (0.75 * GMval * attractorRadius ^ 2 * p0.z ^ 2) / (norm3 p0) ^ 5
    - (0.25 * GMval * attractorRadius ^ 2) / (norm3 p0) ^ 3

/-- Modelled from the spec: the acceleration with the component formulas
written exactly as in the force-law block of the spec (ax = -x (m+o+p),
ay = -y (m+o+p), az = -z (m+o+p+q)). -/
def accelSpec (radius GM : ℝ) (w : Vec3) : Vec3 :=
  let r := norm3 w
  let m := GM / r ^ 3
  let o := -3.75 * GM * radius ^ 2 * w.z ^ 2 / r ^ 7
  let p := 0.75 * GM * radius ^ 2 / r ^ 5
  let q := 1.5 * GM * radius ^ 2 / r ^ 5
  ⟨-(w.x * (m + o + p)), -(w.y * (m + o + p)), -(w.z * (m + o + p + q))⟩

/-- No collision is detected at any loop index below c. -/
def noCollBefore (radius GM dt : ℝ) (p0 v0 : Vec3) (c : ℕ) : Prop :=
  ∀ j < c, radius ≤ norm3 (traj radius GM dt p0 v0 j).1

/-- The first collision the loop can detect happens at index c. -/
def firstCollAt (radius GM dt : ℝ) (p0 v0 : Vec3) (c : ℕ) : Prop :=
  noCollBefore radius GM dt p0 v0 c ∧ norm3 (traj radius GM dt p0 v0 c).1 < radius

/-! ### Structural lemmas about the step loop -/

theorem traj_shift (radius GM dt : ℝ) (p v : Vec3) (j : ℕ) :
    traj radius GM dt (rk2Step radius GM dt p v).1 (rk2Step radius GM dt p v).2 j
      = traj radius GM dt p v (j + 1) := by
  induction j with
  | zero => simp [traj]
  | succ j ih => simp only [traj, ih]

theorem range_map_succ {α : Type} (f : ℕ → α) (k : ℕ) :
    (List.range (k + 1)).map f = f 0 :: (List.range k).map (fun j => f (j + 1)) := by
  rw [List.range_succ_eq_map, List.map_cons, List.map_map]
  rfl

theorem freezeTimes_eq (dt : ℝ) : ∀ (k : ℕ) (t : ℝ),
    freezeTimes t dt k = (List.range k).map (fun (j : ℕ) => t + ((j : ℝ) + 1) * dt) := by
  intro k
  induction k with
  | zero => intro t; simp [freezeTimes]
  | succ k ih =>
    intro t
    rw [freezeTimes, ih (t + dt), range_map_succ]
    refine congrArg₂ _ ?_ ?_
    · push_cast; ring
    · apply List.map_congr_left
      intro j _
      push_cast; ring

theorem loopAux_t (radius GM dt : ℝ) : ∀ (k i : ℕ) (t : ℝ) (p v : Vec3),
    (loopAux radius GM dt i t p v k).t
      = (List.range k).map (fun (j : ℕ) => t + ((j : ℝ) + 1) * dt) := by
  intro k
  induction k with
  | zero => intro i t p v; simp [loopAux]
  | succ k ih =>
    intro i t p v
    by_cases h : norm3 p < radius
    · simp only [loopAux, if_pos h]
      exact freezeTimes_eq dt (k + 1) t
    · simp only [loopAux, if_neg h]
      rw [ih, range_map_succ]
      refine congrArg₂ _ ?_ ?_
      · push_cast; ring
      · apply List.map_congr_left
        intro j _
        push_cast; ring

theorem loopAux_noColl (radius GM dt : ℝ) : ∀ (k i : ℕ) (t : ℝ) (p v : Vec3),
    (∀ j < k, radius ≤ norm3 (traj radius GM dt p v j).1) →
    loopAux radius GM dt i t p v k =
      ⟨(List.range k).map (fun (j : ℕ) => t + ((j : ℝ) + 1) * dt),
       (List.range k).map (fun j => (traj radius GM dt p v (j + 1)).1),
       (List.range k).map (fun j => (traj radius GM dt p v (j + 1)).2),
       i + k, 0⟩ := by
  intro k
  induction k with
  | zero => intro i t p v _; simp [loopAux]
  | succ k ih =>
    intro i t p v h
    have h0 : radius ≤ norm3 p := by
      have := h 0 (Nat.succ_pos k)
      simpa [traj] using this
    simp only [loopAux, if_neg (not_lt.mpr h0)]
    have hshift : ∀ j < k, radius ≤ norm3 (traj radius GM dt
        (rk2Step radius GM dt p v).1 (rk2Step radius GM dt p v).2 j).1 := by
      intro j hj
      rw [traj_shift]
      exact h (j + 1) (Nat.succ_lt_succ hj)
    rw [ih (i + 1) (t + dt) _ _ hshift]
    simp only [RKOut.mk.injEq]
    refine ⟨?_, ?_, ?_, by omega, trivial⟩
    · rw [range_map_succ]
      refine congrArg₂ _ ?_ ?_
      · push_cast; ring
      · apply List.map_congr_left
        intro j _
        push_cast; ring
    · rw [range_map_succ (fun j => (traj radius GM dt p v (j + 1)).1)]
      refine congrArg₂ _ ?_ ?_
      · simp [traj]
      · apply List.map_congr_left
        intro j _
        rw [traj_shift]
    · rw [range_map_succ (fun j => (traj radius GM dt p v (j + 1)).2)]
      refine congrArg₂ _ ?_ ?_
      · simp [traj]
      · apply List.map_congr_left
        intro j _
        rw [traj_shift]

theorem loopAux_coll (radius GM dt : ℝ) : ∀ (c k i : ℕ) (t : ℝ) (p v : Vec3),
    (∀ j < c, radius ≤ norm3 (traj radius GM dt p v j).1) →
    norm3 (traj radius GM dt p v c).1 < radius →
    c < k →
    loopAux radius GM dt i t p v k =
      ⟨(List.range k).map (fun (j : ℕ) => t + ((j : ℝ) + 1) * dt),
       (List.range c).map (fun j => (traj radius GM dt p v (j + 1)).1)
         ++ List.replicate (k - c) (traj radius GM dt p v c).1,
       (List.range c).map (fun j => (traj radius GM dt p v (j + 1)).2)
         ++ List.replicate (k - c) (⟨0, 0, 0⟩ : Vec3),
       i + c, 1⟩ := by
  intro c
  induction c with
  | zero =>
    intro k i t p v _ hcoll hk
    obtain ⟨k', rfl⟩ : ∃ k', k = k' + 1 := ⟨k - 1, by omega⟩
    have hp : norm3 p < radius := by simpa [traj] using hcoll
    simp only [loopAux, if_pos hp]
    simp only [RKOut.mk.injEq]
    refine ⟨freezeTimes_eq dt (k' + 1) t, ?_, ?_, by omega, trivial⟩
    · simp [traj]
    · simp
  | succ c ih =>
    intro k i t p v h hcoll hk
    obtain ⟨k', rfl⟩ : ∃ k', k = k' + 1 := ⟨k - 1, by omega⟩
    have h0 : radius ≤ norm3 p := by
      have := h 0 (Nat.succ_pos c)
      simpa [traj] using this
    simp only [loopAux, if_neg (not_lt.mpr h0)]
    have hshift : ∀ j < c, radius ≤ norm3 (traj radius GM dt
        (rk2Step radius GM dt p v).1 (rk2Step radius GM dt p v).2 j).1 := by
      intro j hj
      rw [traj_shift]
      exact h (j + 1) (Nat.succ_lt_succ hj)
    have hcoll' : norm3 (traj radius GM dt
        (rk2Step radius GM dt p v).1 (rk2Step radius GM dt p v).2 c).1 < radius := by
      rw [traj_shift]; exact hcoll
    rw [ih k' (i + 1) (t + dt) _ _ hshift hcoll' (by omega)]
    simp only [RKOut.mk.injEq]
    refine ⟨?_, ?_, ?_, by omega, trivial⟩
    · rw [range_map_succ]
      refine congrArg₂ _ ?_ ?_
      · push_cast; ring
      · apply List.map_congr_left
        intro j _
        push_cast; ring
    · rw [range_map_succ (fun j => (traj radius GM dt p v (j + 1)).1),
        List.cons_append]
      refine congrArg₂ _ (by simp [traj]) ?_
      rw [traj_shift]
      refine congrArg₂ _ ?_ (by rw [show k' + 1 - (c + 1) = k' - c by omega])
      apply List.map_congr_left
      intro j _
      rw [traj_shift]
    · rw [range_map_succ (fun j => (traj radius GM dt p v (j + 1)).2),
        List.cons_append]
      refine congrArg₂ _ (by simp [traj]) ?_
      refine congrArg₂ _ ?_ (by rw [show k' + 1 - (c + 1) = k' - c by omega])
      apply List.map_congr_left
      intro j _
      rw [traj_shift]

theorem loopAux_num_ge_start (radius GM dt : ℝ) : ∀ (k i : ℕ) (t : ℝ) (p v : Vec3),
    i ≤ (loopAux radius GM dt i t p v k).num := by
  intro k
  induction k with
  | zero => intro i t p v; simp [loopAux]
  | succ k ih =>
    intro i t p v
    by_cases h : norm3 p < radius
    · simp [loopAux, h]
    · simp only [loopAux, if_neg h]
      exact le_trans (Nat.le_succ i) (ih (i + 1) (t + dt) _ _)

theorem loopAux_num_ge (radius GM dt : ℝ) : ∀ (c k i : ℕ) (t : ℝ) (p v : Vec3),
    (∀ j < c, radius ≤ norm3 (traj radius GM dt p v j).1) →
    c ≤ k →
    i + c ≤ (loopAux radius GM dt i t p v k).num := by
  intro c
  induction c with
  | zero =>
    intro k i t p v _ _
    simpa using loopAux_num_ge_start radius GM dt k i t p v
  | succ c ih =>
    intro k i t p v h hck
    obtain ⟨k', rfl⟩ : ∃ k', k = k' + 1 := ⟨k - 1, by omega⟩
    have h0 : radius ≤ norm3 p := by
      have := h 0 (Nat.succ_pos c)
      simpa [traj] using this
    simp only [loopAux, if_neg (not_lt.mpr h0)]
    have hshift : ∀ j < c, radius ≤ norm3 (traj radius GM dt
        (rk2Step radius GM dt p v).1 (rk2Step radius GM dt p v).2 j).1 := by
      intro j hj
      rw [traj_shift]
      exact h (j + 1) (Nat.succ_lt_succ hj)
    have := ih k' (i + 1) (t + dt) _ _ hshift (by omega)
    omega

theorem loopAux_num_le (radius GM dt : ℝ) : ∀ (k i : ℕ) (t : ℝ) (p v : Vec3),
    (loopAux radius GM dt i t p v k).num ≤ i + k := by
  intro k
  induction k with
  | zero => intro i t p v; simp [loopAux]
  | succ k ih =>
    intro i t p v
    by_cases h : norm3 p < radius
    · simp [loopAux, h]
    · simp only [loopAux, if_neg h]
      have := ih (i + 1) (t + dt) (rk2Step radius GM dt p v).1 (rk2Step radius GM dt p v).2
      omega

theorem loopAux_pos_length (radius GM dt : ℝ) : ∀ (k i : ℕ) (t : ℝ) (p v : Vec3),
    (loopAux radius GM dt i t p v k).pos.length = k := by
  intro k
  induction k with
  | zero => intro i t p v; simp [loopAux]
  | succ k ih =>
    intro i t p v
    by_cases h : norm3 p < radius
    · simp [loopAux, h]
    · simp only [loopAux, if_neg h, List.length_cons]
      rw [ih]

/-! ### planetRK2-level consequences -/

theorem planetRK2_noColl (n : ℕ) (radius GM dt : ℝ) (p0 v0 : Vec3)
    (hn : 2 ≤ n) (h : noCollBefore radius GM dt p0 v0 (n - 1)) :
    planetRK2 n radius GM dt p0 v0 =
      ⟨(List.range n).map (fun (g : ℕ) => (g : ℝ) * dt),
       (List.range n).map (fun g => (traj radius GM dt p0 v0 g).1),
       (List.range n).map (fun g => (traj radius GM dt p0 v0 g).2),
       n - 1, 0⟩ := by
  rw [planetRK2, if_neg (by omega)]
  rw [loopAux_noColl radius GM dt (n - 1) 0 0 p0 v0 h]
  obtain ⟨n', rfl⟩ : ∃ n', n = n' + 1 := ⟨n - 1, by omega⟩
  simp only [RKOut.mk.injEq, Nat.add_sub_cancel]
  refine ⟨?_, ?_, ?_, by omega, trivial⟩
  · rw [range_map_succ (fun (g : ℕ) => (g : ℝ) * dt)]
    refine congrArg₂ _ (by norm_num) ?_
    apply List.map_congr_left
    intro j _
    push_cast; ring
  · rw [range_map_succ (fun g => (traj radius GM dt p0 v0 g).1)]
    exact congrArg₂ _ (by simp [traj]) rfl
  · rw [range_map_succ (fun g => (traj radius GM dt p0 v0 g).2)]
    exact congrArg₂ _ (by simp [traj]) rfl

theorem planetRK2_coll (n c : ℕ) (radius GM dt : ℝ) (p0 v0 : Vec3)
    (hcn : c + 2 ≤ n) (h : firstCollAt radius GM dt p0 v0 c) :
    planetRK2 n radius GM dt p0 v0 =
      ⟨(List.range n).map (fun (g : ℕ) => (g : ℝ) * dt),
       (List.range (c + 1)).map (fun g => (traj radius GM dt p0 v0 g).1)
         ++ List.replicate (n - 1 - c) (traj radius GM dt p0 v0 c).1,
       (List.range (c + 1)).map (fun g => (traj radius GM dt p0 v0 g).2)
         ++ List.replicate (n - 1 - c) (⟨0, 0, 0⟩ : Vec3),
       c, 1⟩ := by
  rw [planetRK2, if_neg (by omega)]
  rw [loopAux_coll radius GM dt c (n - 1) 0 0 p0 v0 h.1 h.2 (by omega)]
  obtain ⟨n', rfl⟩ : ∃ n', n = n' + 1 := ⟨n - 1, by omega⟩
  simp only [RKOut.mk.injEq, Nat.add_sub_cancel]
  refine ⟨?_, ?_, ?_, by omega, trivial⟩
  · rw [range_map_succ (fun (g : ℕ) => (g : ℝ) * dt)]
    refine congrArg₂ _ (by norm_num) ?_
    apply List.map_congr_left
    intro j _
    push_cast; ring
  · rw [range_map_succ (fun g => (traj radius GM dt p0 v0 g).1), List.cons_append]
    refine congrArg₂ _ (by simp [traj]) ?_
    exact congrArg₂ _ rfl rfl
  · rw [range_map_succ (fun g => (traj radius GM dt p0 v0 g).2), List.cons_append]
    refine congrArg₂ _ (by simp [traj]) ?_
    exact congrArg₂ _ rfl rfl

theorem planetRK2_num_ge (n c : ℕ) (radius GM dt : ℝ) (p0 v0 : Vec3)
    (hn : 2 ≤ n) (hc : c ≤ n - 1) (h : noCollBefore radius GM dt p0 v0 c) :
    c ≤ (planetRK2 n radius GM dt p0 v0).num := by
  rw [planetRK2, if_neg (by omega)]
  have := loopAux_num_ge radius GM dt c (n - 1) 0 0 p0 v0 h hc
  simpa using this

theorem planetRK2_num_le (n : ℕ) (radius GM dt : ℝ) (p0 v0 : Vec3) (hn : 2 ≤ n) :
    (planetRK2 n radius GM dt p0 v0).num ≤ n - 1 := by
  rw [planetRK2, if_neg (by omega)]
  have := loopAux_num_le radius GM dt (n - 1) 0 0 p0 v0
  simpa using this

theorem planetRK2_pos_length (n : ℕ) (radius GM dt : ℝ) (p0 v0 : Vec3) (hn : 2 ≤ n) :
    (planetRK2 n radius GM dt p0 v0).pos.length = n := by
  rw [planetRK2, if_neg (by omega)]
  simp only [List.length_cons, loopAux_pos_length]
  omega

theorem planetRK2_num_nonpos_radius (n : ℕ) (radius GM dt : ℝ) (p0 v0 : Vec3)
    (hn : 2 ≤ n) (hrad : radius ≤ 0) :
    (planetRK2 n radius GM dt p0 v0).num = n - 1 := by
  rw [planetRK2_noColl n radius GM dt p0 v0 hn
    (fun j _ => le_trans hrad (norm3_nonneg _))]

/-! ### Planar invariance -/

theorem rk2Step_planar (radius GM dt : ℝ) (p v : Vec3)
    (hz : p.z = 0) (hvz : v.z = 0) :
    (rk2Step radius GM dt p v).1.z = 0 ∧ (rk2Step radius GM dt p v).2.z = 0 := by
  constructor <;> simp [rk2Step, hz, hvz]

theorem traj_planar (radius GM dt : ℝ) (p0 v0 : Vec3)
    (hz : p0.z = 0) (hvz : v0.z = 0) (j : ℕ) :
    (traj radius GM dt p0 v0 j).1.z = 0 ∧ (traj radius GM dt p0 v0 j).2.z = 0 := by
  induction j with
  | zero => exact ⟨hz, hvz⟩
  | succ j ih =>
    simp only [traj]
    exact rk2Step_planar radius GM dt _ _ ih.1 ih.2

theorem loopAux_pos_planar (radius GM dt : ℝ) : ∀ (k i : ℕ) (t : ℝ) (p v : Vec3),
    p.z = 0 → v.z = 0 →
    ∀ w ∈ (loopAux radius GM dt i t p v k).pos, w.z = 0 := by
  intro k
  induction k with
  | zero => intro i t p v _ _ w hw; simp [loopAux] at hw
  | succ k ih =>
    intro i t p v hz hvz w hw
    by_cases h : norm3 p < radius
    · simp only [loopAux, if_pos h] at hw
      rw [List.eq_of_mem_replicate hw]
      exact hz
    · simp only [loopAux, if_neg h, List.mem_cons] at hw
      rcases hw with rfl | hw
      · exact (rk2Step_planar radius GM dt p v hz hvz).1
      · exact ih (i + 1) (t + dt) _ _ (rk2Step_planar radius GM dt p v hz hvz).1
          (rk2Step_planar radius GM dt p v hz hvz).2 w hw

theorem planetRK2_pos_planar (n : ℕ) (radius GM dt : ℝ) (p0 v0 : Vec3)
    (hz : p0.z = 0) (hvz : v0.z = 0) :
    ∀ w ∈ (planetRK2 n radius GM dt p0 v0).pos, w.z = 0 := by
  rw [planetRK2]
  split_ifs with h
  · intro w hw
    simp at hw
    rw [hw]; exact hz
  · intro w hw
    simp only [List.mem_cons] at hw
    rcases hw with rfl | hw
    · exact hz
    · exact loopAux_pos_planar radius GM dt (n - 1) 0 0 p0 v0 hz hvz w hw

/-! ### Evaluation helpers -/

theorem norm3_axis (x : ℝ) : norm3 ⟨x, 0, 0⟩ = |x| := by
  rw [norm3]
  norm_num [Real.sqrt_sq_eq_abs]

theorem samplePlanarOrbit_one (radius : ℝ) :
    samplePlanarOrbit 1 radius = [⟨radius, 0, 0⟩] := by
  rw [samplePlanarOrbit]
  norm_num [List.range_succ, Real.cos_zero, Real.sin_zero]

theorem samplePlanarOrbit_z (s : ℕ) (r : ℝ) : ∀ w ∈ samplePlanarOrbit s r, w.z = 0 := by
  intro w hw
  simp only [samplePlanarOrbit, List.mem_map, List.mem_range] at hw
  obtain ⟨i, _, rfl⟩ := hw
  rfl

theorem numPoints_eval (ft : ℝ) (m : ℕ) (h : ft / (0.1 : ℝ) = (m : ℝ)) :
    numPoints ft = m := by
  rw [numPoints, h, round_natCast]
  exact Int.natAbs_ofNat m

theorem numPoints_one : numPoints 1 = 10 := by
  apply numPoints_eval
  norm_num

theorem fallbackPair_eq : fallbackPair = ([⟨(0.1 : ℝ), 0, 0⟩], 0) := by
  rw [fallbackPair, samplePlanarOrbit_one]

/-! ### The velocity update against the spec force law -/

theorem rk2Step_vel_eq (radius GM dt : ℝ) (p v : Vec3) :
    (rk2Step radius GM dt p v).2
      = v + dt • accelSpec radius GM (p + (dt / 2) • v) := by
  have harg : p + (dt / 2) • v
      = (⟨p.x + dt * v.x / 2, p.y + dt * v.y / 2, p.z + dt * v.z / 2⟩ : Vec3) := by
    apply Vec3.ext3 <;> simp [Vec3.add_def, Vec3.smul_def] <;> ring
  rw [harg]
  apply Vec3.ext3 <;>
    simp only [rk2Step, accelSpec, Vec3.add_def, Vec3.smul_def] <;> ring

/-! ### Branch reductions of calculateOrbit -/

theorem calculateOrbit_main (ft : ℝ) (p0 v0 : Vec3) (R : ℝ)
    (hn : numPoints ft ≠ 0) (hr : 0 < norm3 p0) (hv : 0 < norm3 v0)
    (hnum : 2 ≤ (planetRK2 (numPoints ft) R GMval (0.1 : ℝ) p0 v0).num) :
    calculateOrbit ft p0 v0 R =
      ((planetRK2 (numPoints ft) R GMval (0.1 : ℝ) p0 v0).pos.take
        ((planetRK2 (numPoints ft) R GMval (0.1 : ℝ) p0 v0).num + 1),
       energyFormula p0 v0 R) := by
  simp only [calculateOrbit]
  rw [if_neg (by push_neg; exact ⟨by omega, by norm_num⟩)]
  rw [if_neg (by push_neg; exact ⟨hr, hv⟩)]
  rw [if_neg (by omega)]
  refine congrArg₂ _ rfl ?_
  rw [energyFormula]; ring

theorem calculateOrbit_guard1 (ft : ℝ) (p0 v0 : Vec3) (R : ℝ)
    (hn : numPoints ft = 0) : calculateOrbit ft p0 v0 R = fallbackPair := by
  simp only [calculateOrbit]
  rw [if_pos (Or.inl (by omega))]

theorem calculateOrbit_guard2 (ft : ℝ) (p0 v0 : Vec3) (R : ℝ)
    (h : norm3 p0 ≤ 0 ∨ norm3 v0 ≤ 0) :
    calculateOrbit ft p0 v0 R = fallbackPair := by
  simp only [calculateOrbit]
  by_cases hn : numPoints ft ≤ 0 ∨ (0.1 : ℝ) ≤ 0
  · rw [if_pos hn]
  · rw [if_neg hn, if_pos h]

theorem calculateOrbit_fewPoints (ft : ℝ) (p0 v0 : Vec3) (R : ℝ)
    (hn : numPoints ft ≠ 0) (hr : 0 < norm3 p0) (hv : 0 < norm3 v0)
    (hnum : (planetRK2 (numPoints ft) R GMval (0.1 : ℝ) p0 v0).num < 2) :
    calculateOrbit ft p0 v0 R = fallbackPair := by
  simp only [calculateOrbit]
  rw [if_neg (by push_neg; exact ⟨by omega, by norm_num⟩)]
  rw [if_neg (by push_neg; exact ⟨hr, hv⟩)]
  rw [if_pos hnum]

theorem norm3_ey (y : ℝ) : norm3 ⟨0, y, 0⟩ = |y| := by
  rw [norm3]
  norm_num [Real.sqrt_sq_eq_abs]

theorem calculateOrbit_noColl_eq (ft : ℝ) (p0 v0 : Vec3) (R : ℝ)
    (hn : 3 ≤ numPoints ft) (hr : 0 < norm3 p0) (hv : 0 < norm3 v0)
    (h : noCollBefore R GMval (0.1 : ℝ) p0 v0 (numPoints ft - 1)) :
    calculateOrbit ft p0 v0 R =
      ((List.range (numPoints ft)).map (fun g => (traj R GMval (0.1 : ℝ) p0 v0 g).1),
       energyFormula p0 v0 R) := by
  have h2 : 2 ≤ numPoints ft := by omega
  have hres := planetRK2_noColl (numPoints ft) R GMval (0.1 : ℝ) p0 v0 h2 h
  have hnum : 2 ≤ (planetRK2 (numPoints ft) R GMval (0.1 : ℝ) p0 v0).num := by
    rw [hres]; exact Nat.le_sub_of_add_le hn
  rw [calculateOrbit_main ft p0 v0 R (by omega) hr hv hnum]
  rw [hres]
  refine congrArg₂ _ ?_ rfl
  show List.take (numPoints ft - 1 + 1) _ = _
  rw [show numPoints ft - 1 + 1 = numPoints ft by omega]
  exact List.take_of_length_le (by simp)

/-! ### Claim theorems -/

/-- C1: for every input on which integration succeeds (the non-fallback
path of calculateOrbit), the returned energy equals
0.5 v0^2 - GM/r0 + 0.75 GM R^2 z0^2 / r0^5 - 0.25 GM R^2 / r0^3 with
GM = 4 pi^2; it is a function of the initial state alone, not of the
trajectory. -/
theorem energy_from_initial_state (ft : ℝ) (p0 v0 : Vec3) (R : ℝ)
    (hn : numPoints ft ≠ 0) (hr : 0 < norm3 p0) (hv : 0 < norm3 v0)
    (hnum : 2 ≤ (planetRK2 (numPoints ft) R GMval (0.1 : ℝ) p0 v0).num) :
    (calculateOrbit ft p0 v0 R).2 = energyFormula p0 v0 R := by
  rw [calculateOrbit_main ft p0 v0 R hn hr hv hnum]

theorem energy_from_initial_state_witness :
    numPoints 1 ≠ 0 ∧ 0 < norm3 ⟨1, 0, 0⟩ ∧ 0 < norm3 ⟨0, 1, 0⟩ ∧
    2 ≤ (planetRK2 (numPoints 1) 0 GMval (0.1 : ℝ) ⟨1, 0, 0⟩ ⟨0, 1, 0⟩).num ∧
    (calculateOrbit 1 ⟨1, 0, 0⟩ ⟨0, 1, 0⟩ 0).2 = energyFormula ⟨1, 0, 0⟩ ⟨0, 1, 0⟩ 0 := by
  have h1 : numPoints 1 ≠ 0 := by rw [numPoints_one]; omega
  have h2 : 0 < norm3 ⟨1, 0, 0⟩ := by rw [norm3_axis]; norm_num
  have h3 : 0 < norm3 ⟨0, 1, 0⟩ := by rw [norm3_ey]; norm_num
  have h4 : 2 ≤ (planetRK2 (numPoints 1) 0 GMval (0.1 : ℝ) ⟨1, 0, 0⟩ ⟨0, 1, 0⟩).num := by
    rw [numPoints_one,
      planetRK2_num_nonpos_radius 10 0 GMval (0.1 : ℝ) _ _ (by omega) le_rfl]
    omega
  exact ⟨h1, h2, h3, h4, energy_from_initial_state 1 ⟨1, 0, 0⟩ ⟨0, 1, 0⟩ 0 h1 h2 h3 h4⟩

/-- C6: whenever the computed point count is zero, or the initial position
or velocity has nonpositive magnitude, calculateOrbit returns the
single-point fallback (0.1, 0, 0) with energy 0. -/
theorem invalid_input_fallback (ft : ℝ) (p0 v0 : Vec3) (R : ℝ)
    (h : numPoints ft = 0 ∨ norm3 p0 ≤ 0 ∨ norm3 v0 ≤ 0) :
    calculateOrbit ft p0 v0 R = ([⟨(0.1 : ℝ), 0, 0⟩], 0) := by
  rw [← fallbackPair_eq]
  rcases h with h | h
  · exact calculateOrbit_guard1 ft p0 v0 R h
  · exact calculateOrbit_guard2 ft p0 v0 R h

theorem invalid_input_fallback_witness :
    (numPoints 1 = 0 ∨ norm3 ⟨0, 0, 0⟩ ≤ 0 ∨ norm3 ⟨1, 0, 0⟩ ≤ 0) ∧
    calculateOrbit 1 ⟨0, 0, 0⟩ ⟨1, 0, 0⟩ (0.1 : ℝ) = ([⟨(0.1 : ℝ), 0, 0⟩], 0) := by
  have h : numPoints 1 = 0 ∨ norm3 (⟨0, 0, 0⟩ : Vec3) ≤ 0 ∨ norm3 (⟨1, 0, 0⟩ : Vec3) ≤ 0 :=
    Or.inr (Or.inl (by rw [norm3_axis]; norm_num))
  exact ⟨h, invalid_input_fallback 1 ⟨0, 0, 0⟩ ⟨1, 0, 0⟩ (0.1 : ℝ) h⟩

/-- C3: if the initial position and velocity both lie in the z = 0 plane
and the attractor radius is nonnegative, every point of the trajectory
returned by calculateOrbit has z component exactly 0 (in exact
arithmetic). -/
theorem planar_confinement (ft : ℝ) (p0 v0 : Vec3) (R : ℝ)
    (_hR : 0 ≤ R) (hz : p0.z = 0) (hvz : v0.z = 0) :
    ∀ w ∈ (calculateOrbit ft p0 v0 R).1, w.z = 0 := by
  intro w hw
  simp only [calculateOrbit] at hw
  split_ifs at hw with h1 h2 h3
  · exact samplePlanarOrbit_z 1 (0.1 : ℝ) w (by simpa [fallbackPair] using hw)
  · exact samplePlanarOrbit_z 1 (0.1 : ℝ) w (by simpa [fallbackPair] using hw)
  · exact samplePlanarOrbit_z 1 (0.1 : ℝ) w (by simpa [fallbackPair] using hw)
  · exact planetRK2_pos_planar (numPoints ft) R GMval (0.1 : ℝ) p0 v0 hz hvz w
      (List.take_subset _ _ hw)

theorem planar_confinement_witness :
    (0 : ℝ) ≤ (0.1 : ℝ) ∧
    ∀ w ∈ (calculateOrbit 1 ⟨1, 0, 0⟩ ⟨0, 2, 0⟩ (0.1 : ℝ)).1, w.z = 0 :=
  ⟨by norm_num, planar_confinement 1 ⟨1, 0, 0⟩ ⟨0, 2, 0⟩ (0.1 : ℝ) (by norm_num) rfl rfl⟩

/-- C8: samplePlanarOrbit with samples at least 1 returns exactly that many
points, the k-th being (r cos(2 pi k / samples), r sin(2 pi k / samples), 0);
every returned point lies in the z = 0 plane at distance the absolute value
of radius from the origin. -/
theorem sampler_points (s : ℕ) (r : ℝ) (_hs : 1 ≤ s) :
    (samplePlanarOrbit s r).length = s ∧
    (∀ k < s, (samplePlanarOrbit s r).get? k =
      some ⟨r * Real.cos (2 * π * (k : ℝ) / (s : ℝ)),
            r * Real.sin (2 * π * (k : ℝ) / (s : ℝ)), 0⟩) ∧
    (∀ w ∈ samplePlanarOrbit s r, w.z = 0 ∧ norm3 w = |r|) := by
  refine ⟨by simp [samplePlanarOrbit], ?_, ?_⟩
  · intro k hk
    have hang : (k : ℝ) / (s : ℝ) * 2 * π = 2 * π * (k : ℝ) / (s : ℝ) := by ring
    simp only [samplePlanarOrbit, List.get?_map, List.get?_range hk,
      Option.map_some', hang]
  · intro w hw
    simp only [samplePlanarOrbit, List.mem_map, List.mem_range] at hw
    obtain ⟨i, _, rfl⟩ := hw
    refine ⟨rfl, ?_⟩
    rw [norm3]
    have hsum : (r * Real.cos ((i : ℝ) / (s : ℝ) * 2 * π)) ^ 2
        + (r * Real.sin ((i : ℝ) / (s : ℝ) * 2 * π)) ^ 2 + (0 : ℝ) ^ 2 = r ^ 2 := by
      have hcs := Real.sin_sq_add_cos_sq ((i : ℝ) / (s : ℝ) * 2 * π)
      nlinarith [hcs]
    rw [hsum, Real.sqrt_sq_eq_abs]

theorem sampler_points_witness :
    1 ≤ 4 ∧
    ((samplePlanarOrbit 4 (2 : ℝ)).length = 4 ∧
     (∀ k < 4, (samplePlanarOrbit 4 (2 : ℝ)).get? k =
       some ⟨2 * Real.cos (2 * π * (k : ℝ) / ((4 : ℕ) : ℝ)),
             2 * Real.sin (2 * π * (k : ℝ) / ((4 : ℕ) : ℝ)), 0⟩) ∧
     (∀ w ∈ samplePlanarOrbit 4 (2 : ℝ), w.z = 0 ∧ norm3 w = |(2 : ℝ)|)) :=
  ⟨by norm_num, sampler_points 4 (2 : ℝ) (by norm_num)⟩

theorem GMval_pos : (0 : ℝ) < GMval := by
  rw [GMval]
  have := mul_pos Real.pi_pos Real.pi_pos
  linarith

theorem firstCollAt_unit : firstCollAt 2 GMval (0.1 : ℝ) ⟨1, 0, 0⟩ ⟨1, 0, 0⟩ 0 :=
  ⟨fun j hj => absurd hj (Nat.not_lt_zero j), by norm_num [traj, norm3_axis]⟩

/-- C2 (corrected): at the concrete collision input below, the collision
happens at loop index 0, yet the velocity entry at the collision index
itself is the initial velocity (1,0,0), not (0,0,0) as the claim states
for every index from the collision index onward. -/
theorem collision_freeze_cex :
    firstCollAt 2 GMval (0.1 : ℝ) ⟨1, 0, 0⟩ ⟨1, 0, 0⟩ 0 ∧
    (planetRK2 3 2 GMval (0.1 : ℝ) ⟨1, 0, 0⟩ ⟨1, 0, 0⟩).vel.get? 0 = some ⟨1, 0, 0⟩ ∧
    (⟨1, 0, 0⟩ : Vec3) ≠ ⟨0, 0, 0⟩ := by
  refine ⟨firstCollAt_unit, rfl, ?_⟩
  intro hEq
  have hx := congrArg Vec3.x hEq
  norm_num at hx

/-- C2 (amended): if the first detected collision happens at checked loop
index c, the position array holds the collision-free prefix and every
entry from index c on equals the colliding position, every velocity entry
from index c + 1 on is zero (the entry at c keeps its integrated value),
the time array advances by the fixed step over its whole length, and the
loop reports num = c with error flag 1. -/
theorem collision_freeze (n c : ℕ) (radius GM dt : ℝ) (p0 v0 : Vec3)
    (hcn : c + 2 ≤ n) (h : firstCollAt radius GM dt p0 v0 c) :
    planetRK2 n radius GM dt p0 v0 =
      ⟨(List.range n).map (fun (g : ℕ) => (g : ℝ) * dt),
       (List.range (c + 1)).map (fun g => (traj radius GM dt p0 v0 g).1)
         ++ List.replicate (n - 1 - c) (traj radius GM dt p0 v0 c).1,
       (List.range (c + 1)).map (fun g => (traj radius GM dt p0 v0 g).2)
         ++ List.replicate (n - 1 - c) (⟨0, 0, 0⟩ : Vec3),
       c, 1⟩ :=
  planetRK2_coll n c radius GM dt p0 v0 hcn h

theorem collision_freeze_witness :
    firstCollAt 2 GMval (0.1 : ℝ) ⟨1, 0, 0⟩ ⟨1, 0, 0⟩ 0 ∧
    planetRK2 3 2 GMval (0.1 : ℝ) ⟨1, 0, 0⟩ ⟨1, 0, 0⟩ =
      ⟨(List.range 3).map (fun (g : ℕ) => (g : ℝ) * (0.1 : ℝ)),
       (List.range 1).map (fun g => (traj 2 GMval (0.1 : ℝ) ⟨1, 0, 0⟩ ⟨1, 0, 0⟩ g).1)
         ++ List.replicate 2 (traj 2 GMval (0.1 : ℝ) ⟨1, 0, 0⟩ ⟨1, 0, 0⟩ 0).1,
       (List.range 1).map (fun g => (traj 2 GMval (0.1 : ℝ) ⟨1, 0, 0⟩ ⟨1, 0, 0⟩ g).2)
         ++ List.replicate 2 (⟨0, 0, 0⟩ : Vec3),
       0, 1⟩ :=
  ⟨firstCollAt_unit,
   collision_freeze 3 0 2 GMval (0.1 : ℝ) ⟨1, 0, 0⟩ ⟨1, 0, 0⟩ (by omega) firstCollAt_unit⟩

/-- C9: a collision detected at loop index 0 or 1 makes the step loop
report a count below 2, and calculateOrbit then returns the single-point
fallback (0.1, 0, 0) with energy 0 instead of a truncated physical
trajectory. -/
theorem early_collision_fallback (ft : ℝ) (p0 v0 : Vec3) (R : ℝ)
    (hn : 2 ≤ numPoints ft) (hr : 0 < norm3 p0) (hv : 0 < norm3 v0)
    (hcoll : firstCollAt R GMval (0.1 : ℝ) p0 v0 0 ∨
      (3 ≤ numPoints ft ∧ firstCollAt R GMval (0.1 : ℝ) p0 v0 1)) :
    calculateOrbit ft p0 v0 R = ([⟨(0.1 : ℝ), 0, 0⟩], 0) := by
  rw [← fallbackPair_eq]
  apply calculateOrbit_fewPoints ft p0 v0 R (by omega) hr hv
  rcases hcoll with h | ⟨hn3, h⟩
  · rw [planetRK2_coll (numPoints ft) 0 R GMval (0.1 : ℝ) p0 v0 (by omega) h]
    show (0 : ℕ) < 2
    omega
  · rw [planetRK2_coll (numPoints ft) 1 R GMval (0.1 : ℝ) p0 v0 (by omega) h]
    show (1 : ℕ) < 2
    omega

theorem early_collision_fallback_witness :
    2 ≤ numPoints 1 ∧ 0 < norm3 ⟨1, 0, 0⟩ ∧
    firstCollAt 2 GMval (0.1 : ℝ) ⟨1, 0, 0⟩ ⟨1, 0, 0⟩ 0 ∧
    calculateOrbit 1 ⟨1, 0, 0⟩ ⟨1, 0, 0⟩ 2 = ([⟨(0.1 : ℝ), 0, 0⟩], 0) := by
  have h2 : 2 ≤ numPoints 1 := by rw [numPoints_one]; omega
  have hr : 0 < norm3 (⟨1, 0, 0⟩ : Vec3) := by rw [norm3_axis]; norm_num
  exact ⟨h2, hr, firstCollAt_unit,
    early_collision_fallback 1 ⟨1, 0, 0⟩ ⟨1, 0, 0⟩ 2 h2 hr hr (Or.inl firstCollAt_unit)⟩

/-- C5 (corrected): at the concrete never-colliding input below the
returned trajectory has 10 points, not round(finalTime/0.1) + 1 = 11 as
the claim states. -/
theorem stepcount_length_cex :
    (calculateOrbit 1 ⟨1, 0, 0⟩ ⟨0, 2, 0⟩ 0).1.length ≠
      (round (|(1 : ℝ)| / (0.1 : ℝ))).natAbs + 1 := by
  have h : (calculateOrbit 1 ⟨1, 0, 0⟩ ⟨0, 2, 0⟩ 0).1.length = 10 := by
    rw [calculateOrbit_noColl_eq 1 ⟨1, 0, 0⟩ ⟨0, 2, 0⟩ 0
      (by rw [numPoints_one]; omega)
      (by rw [norm3_axis]; norm_num) (by rw [norm3_ey]; norm_num)
      (fun j _ => norm3_nonneg _)]
    simp [numPoints_one]
  rw [h, show |(1 : ℝ)| = 1 by norm_num,
    show (1 : ℝ) / (0.1 : ℝ) = ((10 : ℕ) : ℝ) by norm_num, round_natCast]
  omega

/-- C5 (amended): for inputs with positive initial magnitudes, point count
at least 3, and no collision at any checked index, the trajectory returned
by calculateOrbit has length exactly the internal point count
numPoints = natAbs (round (finalTime / 0.1)), with no extra + 1. -/
theorem stepcount_length (ft : ℝ) (p0 v0 : Vec3) (R : ℝ)
    (hn : 3 ≤ numPoints ft) (hr : 0 < norm3 p0) (hv : 0 < norm3 v0)
    (h : noCollBefore R GMval (0.1 : ℝ) p0 v0 (numPoints ft - 1)) :
    (calculateOrbit ft p0 v0 R).1.length = numPoints ft := by
  rw [calculateOrbit_noColl_eq ft p0 v0 R hn hr hv h]
  simp

theorem stepcount_length_witness :
    3 ≤ numPoints 1 ∧ 0 < norm3 ⟨1, 0, 0⟩ ∧ 0 < norm3 ⟨0, 1, 0⟩ ∧
    noCollBefore 0 GMval (0.1 : ℝ) ⟨1, 0, 0⟩ ⟨0, 1, 0⟩ (numPoints 1 - 1) ∧
    (calculateOrbit 1 ⟨1, 0, 0⟩ ⟨0, 1, 0⟩ 0).1.length = numPoints 1 := by
  have h1 : 3 ≤ numPoints 1 := by rw [numPoints_one]; omega
  have h2 : 0 < norm3 (⟨1, 0, 0⟩ : Vec3) := by rw [norm3_axis]; norm_num
  have h3 : 0 < norm3 (⟨0, 1, 0⟩ : Vec3) := by rw [norm3_ey]; norm_num
  have h4 : noCollBefore 0 GMval (0.1 : ℝ) ⟨1, 0, 0⟩ ⟨0, 1, 0⟩ (numPoints 1 - 1) :=
    fun j _ => norm3_nonneg _
  exact ⟨h1, h2, h3, h4, stepcount_length 1 ⟨1, 0, 0⟩ ⟨0, 1, 0⟩ 0 h1 h2 h3 h4⟩

theorem planetRK2_pos_head (n : ℕ) (radius GM dt : ℝ) (p0 v0 : Vec3) :
    ∃ l, (planetRK2 n radius GM dt p0 v0).pos = p0 :: l := by
  rw [planetRK2]
  split_ifs
  · exact ⟨[], rfl⟩
  · exact ⟨_, rfl⟩

/-- C7 (corrected): finalTime = 0.1 gives a point count of 1, so even with
initial radius above the attractor radius and positive speed the function
returns the single-point fallback: length 1 and head (0.1, 0, 0), not the
claimed length at least 2 with head equal to the initial position. -/
theorem valid_inputs_min_length_cex :
    (0.1 : ℝ) < norm3 ⟨5, 0, 0⟩ ∧ 0 < norm3 ⟨0, 1, 0⟩ ∧
    ¬(2 ≤ (calculateOrbit (0.1 : ℝ) ⟨5, 0, 0⟩ ⟨0, 1, 0⟩ (0.1 : ℝ)).1.length ∧
      (calculateOrbit (0.1 : ℝ) ⟨5, 0, 0⟩ ⟨0, 1, 0⟩ (0.1 : ℝ)).1.head? =
        some ⟨5, 0, 0⟩) := by
  have hnp : numPoints (0.1 : ℝ) = 1 := numPoints_eval (0.1 : ℝ) 1 (by norm_num)
  have hco : calculateOrbit (0.1 : ℝ) ⟨5, 0, 0⟩ ⟨0, 1, 0⟩ (0.1 : ℝ) = fallbackPair := by
    apply calculateOrbit_fewPoints (0.1 : ℝ) ⟨5, 0, 0⟩ ⟨0, 1, 0⟩ (0.1 : ℝ)
      (by omega) (by rw [norm3_axis]; norm_num) (by rw [norm3_ey]; norm_num)
    rw [hnp, planetRK2, if_pos (by omega : (1 : ℕ) ≤ 1)]
    show (0 : ℕ) < 2
    omega
  refine ⟨by rw [norm3_axis]; norm_num, by rw [norm3_ey]; norm_num, ?_⟩
  rw [hco, fallbackPair_eq]
  rintro ⟨h2, _⟩
  simp at h2

/-- C7 (amended): for inputs with nonnegative attractor radius below the
initial radius, positive initial speed, point count at least 3, and no
collision detected at step index 1, the returned trajectory has length at
least 2 and its first element is exactly the initial position. -/
theorem valid_inputs_min_length (ft : ℝ) (p0 v0 : Vec3) (R : ℝ)
    (hR0 : 0 ≤ R) (hR : R < norm3 p0) (hv : 0 < norm3 v0) (hn : 3 ≤ numPoints ft)
    (h1 : R ≤ norm3 (traj R GMval (0.1 : ℝ) p0 v0 1).1) :
    2 ≤ (calculateOrbit ft p0 v0 R).1.length ∧
    (calculateOrbit ft p0 v0 R).1.head? = some p0 := by
  have hr : 0 < norm3 p0 := lt_of_le_of_lt hR0 hR
  have hnc : noCollBefore R GMval (0.1 : ℝ) p0 v0 2 := by
    intro j hj
    interval_cases j
    · exact le_of_lt (by simpa [traj] using hR)
    · exact h1
  have hnum : 2 ≤ (planetRK2 (numPoints ft) R GMval (0.1 : ℝ) p0 v0).num :=
    planetRK2_num_ge (numPoints ft) 2 R GMval (0.1 : ℝ) p0 v0 (by omega) (by omega) hnc
  rw [calculateOrbit_main ft p0 v0 R (by omega) hr hv hnum]
  obtain ⟨l, hl⟩ := planetRK2_pos_head (numPoints ft) R GMval (0.1 : ℝ) p0 v0
  constructor
  · have hlen := planetRK2_pos_length (numPoints ft) R GMval (0.1 : ℝ) p0 v0 (by omega)
    have hle := planetRK2_num_le (numPoints ft) R GMval (0.1 : ℝ) p0 v0 (by omega)
    simp only [List.length_take]
    omega
  · rw [hl, List.take_succ_cons]
    rfl

theorem valid_inputs_min_length_witness :
    (0 : ℝ) ≤ 0 ∧ (0 : ℝ) < norm3 ⟨1, 0, 0⟩ ∧ 0 < norm3 ⟨1, 1, 0⟩ ∧ 3 ≤ numPoints 1 ∧
    (0 : ℝ) ≤ norm3 (traj 0 GMval (0.1 : ℝ) ⟨1, 0, 0⟩ ⟨1, 1, 0⟩ 1).1 ∧
    (2 ≤ (calculateOrbit 1 ⟨1, 0, 0⟩ ⟨1, 1, 0⟩ 0).1.length ∧
     (calculateOrbit 1 ⟨1, 0, 0⟩ ⟨1, 1, 0⟩ 0).1.head? = some ⟨1, 0, 0⟩) := by
  have ha : (0 : ℝ) < norm3 (⟨1, 0, 0⟩ : Vec3) := by rw [norm3_axis]; norm_num
  have hb : (0 : ℝ) < norm3 (⟨1, 1, 0⟩ : Vec3) := by
    rw [norm3]
    positivity
  have hn : 3 ≤ numPoints 1 := by rw [numPoints_one]; omega
  exact ⟨le_rfl, ha, hb, hn, norm3_nonneg _,
    valid_inputs_min_length 1 ⟨1, 0, 0⟩ ⟨1, 1, 0⟩ 0 le_rfl ha hb hn (norm3_nonneg _)⟩

theorem loopAux_get (radius GM dt : ℝ) : ∀ (c k i : ℕ) (t : ℝ) (p v : Vec3),
    (∀ j < c + 1, radius ≤ norm3 (traj radius GM dt p v j).1) →
    c < k →
    (loopAux radius GM dt i t p v k).vel.get? c
        = some (traj radius GM dt p v (c + 1)).2 ∧
    (loopAux radius GM dt i t p v k).pos.get? c
        = some (traj radius GM dt p v (c + 1)).1 := by
  intro c
  induction c with
  | zero =>
    intro k i t p v h hk
    obtain ⟨k', rfl⟩ : ∃ k', k = k' + 1 := ⟨k - 1, by omega⟩
    have h0 : radius ≤ norm3 p := by
      have := h 0 (by omega)
      simpa [traj] using this
    simp only [loopAux, if_neg (not_lt.mpr h0)]
    exact ⟨by simp [traj], by simp [traj]⟩
  | succ c ih =>
    intro k i t p v h hk
    obtain ⟨k', rfl⟩ : ∃ k', k = k' + 1 := ⟨k - 1, by omega⟩
    have h0 : radius ≤ norm3 p := by
      have := h 0 (by omega)
      simpa [traj] using this
    simp only [loopAux, if_neg (not_lt.mpr h0)]
    have hshift : ∀ j < c + 1, radius ≤ norm3 (traj radius GM dt
        (rk2Step radius GM dt p v).1 (rk2Step radius GM dt p v).2 j).1 := by
      intro j hj
      rw [traj_shift]
      exact h (j + 1) (by omega)
    have := ih k' (i + 1) (t + dt) _ _ hshift (by omega)
    simp only [List.get?_cons_succ]
    exact ⟨by rw [this.1, traj_shift], by rw [this.2, traj_shift]⟩

/-- C4 (corrected): at the concrete non-collision step below, the new
velocity does not equal vel - dt * accel(half-step position) when accel
carries the negated components the claim states; the code subtracts the
positive quantities, which is vel + dt * accel for that accel. -/
theorem vel_update_half_step_cex :
    noCollBefore 0 GMval (0.1 : ℝ) ⟨1, 0, 0⟩ ⟨0, 1, 0⟩ 1 ∧
    (planetRK2 3 0 GMval (0.1 : ℝ) ⟨1, 0, 0⟩ ⟨0, 1, 0⟩).vel.get? 1 ≠
      some ((⟨0, 1, 0⟩ : Vec3) - (0.1 : ℝ) • accelSpec 0 GMval
        ((⟨1, 0, 0⟩ : Vec3) + ((0.1 : ℝ) / 2) • ⟨0, 1, 0⟩)) := by
  refine ⟨fun j _ => norm3_nonneg _, ?_⟩
  have hget : (planetRK2 3 0 GMval (0.1 : ℝ) ⟨1, 0, 0⟩ ⟨0, 1, 0⟩).vel.get? 1
      = some (traj 0 GMval (0.1 : ℝ) ⟨1, 0, 0⟩ ⟨0, 1, 0⟩ 1).2 := by
    rw [planetRK2, if_neg (by omega)]
    show (loopAux 0 GMval (0.1 : ℝ) 0 0 ⟨1, 0, 0⟩ ⟨0, 1, 0⟩ 2).vel.get? 0 = _
    exact (loopAux_get 0 GMval (0.1 : ℝ) 0 2 0 0 ⟨1, 0, 0⟩ ⟨0, 1, 0⟩
      (fun j _ => norm3_nonneg _) (by omega)).1
  rw [hget]
  have htr : (traj 0 GMval (0.1 : ℝ) ⟨1, 0, 0⟩ ⟨0, 1, 0⟩ 1).2
      = (⟨0, 1, 0⟩ : Vec3) + (0.1 : ℝ) • accelSpec 0 GMval
          ((⟨1, 0, 0⟩ : Vec3) + ((0.1 : ℝ) / 2) • ⟨0, 1, 0⟩) :=
    rk2Step_vel_eq 0 GMval (0.1 : ℝ) ⟨1, 0, 0⟩ ⟨0, 1, 0⟩
  rw [htr]
  intro hEq
  rw [Option.some_inj] at hEq
  have hx := congrArg Vec3.x hEq
  have hw : (⟨1, 0, 0⟩ : Vec3) + ((0.1 : ℝ) / 2) • (⟨0, 1, 0⟩ : Vec3)
      = (⟨1, 1 / 20, 0⟩ : Vec3) := by
    apply Vec3.ext3 <;> simp [Vec3.add_def, Vec3.smul_def] <;> norm_num
  rw [hw] at hx
  have hAx : (accelSpec 0 GMval ⟨1, 1 / 20, 0⟩).x
      = -(GMval / (norm3 ⟨1, (1 : ℝ) / 20, 0⟩) ^ 3) := by
    simp [accelSpec]
  have hrpos : (0 : ℝ) < norm3 ⟨1, (1 : ℝ) / 20, 0⟩ := by
    rw [norm3]
    positivity
  have hfrac : (0 : ℝ) < GMval / (norm3 ⟨1, (1 : ℝ) / 20, 0⟩) ^ 3 :=
    div_pos GMval_pos (by positivity)
  simp only [Vec3.add_def, Vec3.sub_def, Vec3.smul_def] at hx
  rw [hAx] at hx
  simp at hx
  linarith

/-- C4 (amended): in every non-collision integration step the array
velocity at index i + 1 equals the velocity at index i plus dt times the
spec acceleration (ax = -x (m+o+p), ay = -y (m+o+p), az = -z (m+o+p+q))
evaluated at the half-step position pos + (dt/2) vel; equivalently the
code subtracts dt times the positive component quantities. -/
theorem vel_update_half_step (n i : ℕ) (radius GM dt : ℝ) (p0 v0 : Vec3)
    (hin : i + 2 ≤ n) (h : noCollBefore radius GM dt p0 v0 (i + 1)) :
    (planetRK2 n radius GM dt p0 v0).vel.get? (i + 1) =
      some ((traj radius GM dt p0 v0 i).2
        + dt • accelSpec radius GM
            ((traj radius GM dt p0 v0 i).1
              + (dt / 2) • (traj radius GM dt p0 v0 i).2)) := by
  rw [planetRK2, if_neg (by omega)]
  have hget := (loopAux_get radius GM dt i (n - 1) 0 0 p0 v0 h (by omega)).1
  calc (RKOut.mk (0 :: (loopAux radius GM dt 0 0 p0 v0 (n - 1)).t)
        (p0 :: (loopAux radius GM dt 0 0 p0 v0 (n - 1)).pos)
        (v0 :: (loopAux radius GM dt 0 0 p0 v0 (n - 1)).vel)
        (loopAux radius GM dt 0 0 p0 v0 (n - 1)).num
        (loopAux radius GM dt 0 0 p0 v0 (n - 1)).error).vel.get? (i + 1)
      = (loopAux radius GM dt 0 0 p0 v0 (n - 1)).vel.get? i := by
        simp only [List.get?_cons_succ]
    _ = some (traj radius GM dt p0 v0 (i + 1)).2 := hget
    _ = _ := by
        simp only [traj]
        rw [rk2Step_vel_eq]

theorem vel_update_half_step_witness :
    noCollBefore 0 GMval (0.1 : ℝ) ⟨1, 0, 0⟩ ⟨0, 1, 0⟩ 1 ∧
    (planetRK2 3 0 GMval (0.1 : ℝ) ⟨1, 0, 0⟩ ⟨0, 1, 0⟩).vel.get? 1 =
      some ((traj 0 GMval (0.1 : ℝ) ⟨1, 0, 0⟩ ⟨0, 1, 0⟩ 0).2
        + (0.1 : ℝ) • accelSpec 0 GMval
            ((traj 0 GMval (0.1 : ℝ) ⟨1, 0, 0⟩ ⟨0, 1, 0⟩ 0).1
              + ((0.1 : ℝ) / 2) • (traj 0 GMval (0.1 : ℝ) ⟨1, 0, 0⟩ ⟨0, 1, 0⟩ 0).2)) := by
  have h : noCollBefore 0 GMval (0.1 : ℝ) ⟨1, 0, 0⟩ ⟨0, 1, 0⟩ 1 :=
    fun j _ => norm3_nonneg _
  exact ⟨h, vel_update_half_step 3 0 0 GMval (0.1 : ℝ) ⟨1, 0, 0⟩ ⟨0, 1, 0⟩ (by omega) h⟩

/-- C10: when the first detected collision is at loop index c at least 2,
calculateOrbit returns exactly the c + 1 trajectory points up to and
including the colliding position (the last element), together with the
precomputed energy; the frozen duplicate tail and the zeroed velocities in
the internal arrays are not part of the returned value. -/
theorem collision_truncation (ft : ℝ) (p0 v0 : Vec3) (R : ℝ) (c : ℕ)
    (hc : 2 ≤ c) (hcn : c + 2 ≤ numPoints ft)
    (hr : 0 < norm3 p0) (hv : 0 < norm3 v0)
    (hcoll : firstCollAt R GMval (0.1 : ℝ) p0 v0 c) :
    (calculateOrbit ft p0 v0 R).1 =
      (List.range (c + 1)).map (fun g => (traj R GMval (0.1 : ℝ) p0 v0 g).1) ∧
    (calculateOrbit ft p0 v0 R).1.length = c + 1 ∧
    (calculateOrbit ft p0 v0 R).1.getLast? =
      some (traj R GMval (0.1 : ℝ) p0 v0 c).1 ∧
    (calculateOrbit ft p0 v0 R).2 = energyFormula p0 v0 R := by
  have hres := planetRK2_coll (numPoints ft) c R GMval (0.1 : ℝ) p0 v0 hcn hcoll
  have hnum : 2 ≤ (planetRK2 (numPoints ft) R GMval (0.1 : ℝ) p0 v0).num := by
    rw [hres]; exact hc
  have hmain := calculateOrbit_main ft p0 v0 R (by omega) hr hv hnum
  have hfirst : (calculateOrbit ft p0 v0 R).1
      = (List.range (c + 1)).map (fun g => (traj R GMval (0.1 : ℝ) p0 v0 g).1) := by
    rw [hmain, hres]
    show List.take (c + 1) (_ ++ _) = _
    exact List.take_left' (by simp)
  refine ⟨hfirst, by rw [hfirst]; simp, ?_, by rw [hmain]⟩
  rw [hfirst, List.range_succ, List.map_append]
  simp

/-! ### Radial motion along the x axis, for the concrete collision run -/

/-- The scalar x-axis value of m + o + p for a state on the positive or
negative x axis (where z = 0 kills the o term). -/
def axAccel (radius GM x : ℝ) : ℝ :=
  GM / |x| ^ 3 + 0.75 * ((GM * radius * radius) / |x| ^ 5)

theorem rk2Step_axis (radius GM dt x vx : ℝ) :
    rk2Step radius GM dt ⟨x, 0, 0⟩ ⟨vx, 0, 0⟩ =
      (⟨x + dt * (vx - dt * x * axAccel radius GM x / 2), 0, 0⟩,
       ⟨vx - dt * (x + dt * vx / 2) * axAccel radius GM (x + dt * vx / 2), 0, 0⟩) := by
  have hz : ((0 : ℝ) + dt * 0 / 2) = 0 := by ring
  refine Prod.ext ?_ ?_ <;> apply Vec3.ext3 <;>
    simp only [rk2Step, hz, norm3_axis, axAccel, mul_zero, zero_div, add_zero,
      zero_mul, zero_add, sub_zero, neg_zero] <;>
    ring

theorem GMval_bounds : (39.4 : ℝ) < GMval ∧ GMval < 39.7 := by
  rw [GMval]
  constructor <;> nlinarith [Real.pi_gt_d2, Real.pi_lt_d2]

set_option maxHeartbeats 1000000 in
theorem coll_at_two : firstCollAt 10 GMval (0.1 : ℝ) ⟨100, 0, 0⟩ ⟨-460, 0, 0⟩ 2 := by
  obtain ⟨hGMl, hGMu⟩ := GMval_bounds
  have habs100 : |(100 : ℝ)| = 100 := by norm_num
  have hA : 0 < axAccel 10 GMval 100 ∧ axAccel 10 GMval 100 < 0.0001 := by
    rw [axAccel, habs100]
    constructor <;> nlinarith [hGMl, hGMu]
  have ht1 : traj 10 GMval (0.1 : ℝ) ⟨100, 0, 0⟩ ⟨-460, 0, 0⟩ 1
      = (⟨100 + 0.1 * (-460 - 0.1 * 100 * axAccel 10 GMval 100 / 2), 0, 0⟩,
         ⟨-460 - 0.1 * (100 + 0.1 * (-460) / 2)
            * axAccel 10 GMval (100 + 0.1 * (-460) / 2), 0, 0⟩) := by
    show rk2Step 10 GMval (0.1 : ℝ) ⟨100, 0, 0⟩ ⟨-460, 0, 0⟩ = _
    exact rk2Step_axis 10 GMval (0.1 : ℝ) 100 (-460)
  have h77 : (100 : ℝ) + 0.1 * (-460) / 2 = 77 := by norm_num
  rw [h77] at ht1
  have habs77 : |(77 : ℝ)| = 77 := by norm_num
  have hB : 0 < axAccel 10 GMval 77 ∧ axAccel 10 GMval 77 < 0.0001 := by
    rw [axAccel, habs77]
    constructor <;> nlinarith [hGMl, hGMu]
  have hx1 : (53.99 : ℝ) < 100 + 0.1 * (-460 - 0.1 * 100 * axAccel 10 GMval 100 / 2) ∧
      100 + 0.1 * (-460 - 0.1 * 100 * axAccel 10 GMval 100 / 2) < 54 := by
    constructor <;> nlinarith [hA.1, hA.2]
  have hw1 : (-460.001 : ℝ) < -460 - 0.1 * 77 * axAccel 10 GMval 77 ∧
      -460 - 0.1 * 77 * axAccel 10 GMval 77 < -460 := by
    constructor <;> nlinarith [hB.1, hB.2]
  set x1 : ℝ := 100 + 0.1 * (-460 - 0.1 * 100 * axAccel 10 GMval 100 / 2) with hx1def
  set w1 : ℝ := -460 - 0.1 * 77 * axAccel 10 GMval 77 with hw1def
  clear_value x1 w1
  have hx1pos : (0 : ℝ) < x1 := lt_trans (by norm_num) hx1.1
  have habsx1 : |x1| = x1 := abs_of_pos hx1pos
  have ht2 : traj 10 GMval (0.1 : ℝ) ⟨100, 0, 0⟩ ⟨-460, 0, 0⟩ 2
      = rk2Step 10 GMval (0.1 : ℝ) ⟨x1, 0, 0⟩ ⟨w1, 0, 0⟩ := by
    show rk2Step 10 GMval (0.1 : ℝ)
        (traj 10 GMval (0.1 : ℝ) ⟨100, 0, 0⟩ ⟨-460, 0, 0⟩ 1).1
        (traj 10 GMval (0.1 : ℝ) ⟨100, 0, 0⟩ ⟨-460, 0, 0⟩ 1).2 = _
    rw [ht1]
  rw [rk2Step_axis] at ht2
  have hx1cube : (150000 : ℝ) < x1 ^ 3 := by
    have hlt : (53.99 : ℝ) ^ 3 < x1 ^ 3 :=
      pow_lt_pow_left hx1.1 (by norm_num) (by norm_num)
    have hnum : (150000 : ℝ) < (53.99 : ℝ) ^ 3 := by norm_num
    linarith [hlt, hnum]
  have hx1five : (400000000 : ℝ) < x1 ^ 5 := by
    have hlt : (53.99 : ℝ) ^ 5 < x1 ^ 5 :=
      pow_lt_pow_left hx1.1 (by norm_num) (by norm_num)
    have hnum : (400000000 : ℝ) < (53.99 : ℝ) ^ 5 := by norm_num
    linarith [hlt, hnum]
  have hC : 0 < axAccel 10 GMval x1 ∧ axAccel 10 GMval x1 < 0.0003 := by
    rw [axAccel, habsx1]
    have hc1 : 0 < GMval / x1 ^ 3 := div_pos GMval_pos (pow_pos hx1pos 3)
    have hc2 : 0 < (GMval * 10 * 10) / x1 ^ 5 :=
      div_pos (by nlinarith [GMval_pos]) (pow_pos hx1pos 5)
    have hc3 : GMval / x1 ^ 3 < 0.000265 := by
      rw [div_lt_iff (pow_pos hx1pos 3)]
      nlinarith [hx1cube, hGMu]
    have hc4 : (GMval * 10 * 10) / x1 ^ 5 < 0.00001 := by
      rw [div_lt_iff (pow_pos hx1pos 5)]
      nlinarith [hx1five, hGMu]
    constructor <;> nlinarith [hc1, hc2, hc3, hc4]
  have hx2 : (0 : ℝ) < x1 + 0.1 * (w1 - 0.1 * x1 * axAccel 10 GMval x1 / 2) ∧
      x1 + 0.1 * (w1 - 0.1 * x1 * axAccel 10 GMval x1 / 2) < 10 := by
    constructor
    · nlinarith [hx1.1, hx1.2, hw1.1, hw1.2, hC.1, hC.2, hx1pos]
    · nlinarith [hx1.2, hw1.2, hC.1, hx1pos, mul_pos hx1pos hC.1]
  refine ⟨?_, ?_⟩
  · intro j hj
    interval_cases j
    · rw [show (traj 10 GMval (0.1 : ℝ) ⟨100, 0, 0⟩ ⟨-460, 0, 0⟩ 0).1
          = (⟨100, 0, 0⟩ : Vec3) from rfl, norm3_axis]
      norm_num
    · rw [show (traj 10 GMval (0.1 : ℝ) ⟨100, 0, 0⟩ ⟨-460, 0, 0⟩ 1).1
          = (⟨x1, 0, 0⟩ : Vec3) from by rw [ht1], norm3_axis, habsx1]
      linarith [hx1.1]
  · rw [show (traj 10 GMval (0.1 : ℝ) ⟨100, 0, 0⟩ ⟨-460, 0, 0⟩ 2).1
        = (⟨x1 + 0.1 * (w1 - 0.1 * x1 * axAccel 10 GMval x1 / 2), 0, 0⟩ : Vec3)
          from by rw [ht2], norm3_axis, abs_of_pos hx2.1]
    exact hx2.2

theorem collision_truncation_witness :
    firstCollAt 10 GMval (0.1 : ℝ) ⟨100, 0, 0⟩ ⟨-460, 0, 0⟩ 2 ∧
    (calculateOrbit 1 ⟨100, 0, 0⟩ ⟨-460, 0, 0⟩ 10).1.length = 2 + 1 ∧
    (calculateOrbit 1 ⟨100, 0, 0⟩ ⟨-460, 0, 0⟩ 10).1.getLast? =
      some (traj 10 GMval (0.1 : ℝ) ⟨100, 0, 0⟩ ⟨-460, 0, 0⟩ 2).1 ∧
    (calculateOrbit 1 ⟨100, 0, 0⟩ ⟨-460, 0, 0⟩ 10).2 =
      energyFormula ⟨100, 0, 0⟩ ⟨-460, 0, 0⟩ 10 := by
  have h := collision_truncation 1 ⟨100, 0, 0⟩ ⟨-460, 0, 0⟩ 10 2 (by omega)
    (by rw [numPoints_one]; omega)
    (by rw [norm3_axis]; norm_num) (by rw [norm3_axis]; norm_num)
    coll_at_two
  exact ⟨coll_at_two, h.2.1, h.2.2.1, h.2.2.2⟩
